import Mathlib

/-!
Verification of the smartctl prometheus exporter (`smartprom.py`).

This file shallowly embeds the attribute-extraction pipeline of the exporter:
the three protocol extractors (`smart_sat`, `smart_nvme`, `smart_scsi`), the
device-discovery function (`get_drives`), the metric-registry logic inlined in
`collect`, and the tick decision of the `main` polling loop.  Python dicts are
modelled as association lists with in-place-update insertion (matching CPython
insertion-order semantics), uncaught exceptions as `Option.none`, and values
produced by `json.loads` as the inductive type `JVal`.
-/

set_option maxHeartbeats 1600000

namespace SmartProm

/-- A JSON value as produced by Python's `json.loads`: `None`, `bool`, `int`,
`float`, `str`, `list`, or `dict` (with string keys, in insertion order).
The `jfloat` constructor is a tag without payload: no property proved here
depends on the numeric value of a float, only on its runtime type. -/
inductive JVal where
  | jnull
  | jbool (b : Bool)
  | jint (n : Int)
  | jfloat
  | jstr (s : String)
  | jarr (elems : List JVal)
  | jobj (fields : List (String × JVal))

mutual

/-- Structural equality test on `JVal` (the automatic `DecidableEq` derivation
does not support this nested inductive). -/
def JVal.beq : JVal → JVal → Bool
  | .jnull, .jnull => true
  | .jbool a, .jbool b => a == b
  | .jint a, .jint b => a == b
  | .jfloat, .jfloat => true
  | .jstr a, .jstr b => a == b
  | .jarr as, .jarr bs => JVal.beqL as bs
  | .jobj as, .jobj bs => JVal.beqO as bs
  | _, _ => false

/-- Equality test on lists of `JVal`. -/
def JVal.beqL : List JVal → List JVal → Bool
  | [], [] => true
  | a :: as, b :: bs => JVal.beq a b && JVal.beqL as bs
  | _, _ => false

/-- Equality test on association lists of `JVal`. -/
def JVal.beqO : List (String × JVal) → List (String × JVal) → Bool
  | [], [] => true
  | (k, a) :: as, (l, b) :: bs => k == l && JVal.beq a b && JVal.beqO as bs
  | _, _ => false

end

mutual

theorem JVal.beq_iff : ∀ (a b : JVal), (JVal.beq a b = true) ↔ a = b
  | .jnull, b => by cases b <;> simp [JVal.beq]
  | .jbool x, b => by cases b <;> simp [JVal.beq]
  | .jint x, b => by cases b <;> simp [JVal.beq]
  | .jfloat, b => by cases b <;> simp [JVal.beq]
  | .jstr x, b => by cases b <;> simp [JVal.beq]
  | .jarr xs, b => by
      cases b <;> simp [JVal.beq]
      exact JVal.beqL_iff xs _
  | .jobj xs, b => by
      cases b <;> simp [JVal.beq]
      exact JVal.beqO_iff xs _

theorem JVal.beqL_iff : ∀ (as bs : List JVal), (JVal.beqL as bs = true) ↔ as = bs
  | [], bs => by cases bs <;> simp [JVal.beqL]
  | a :: as, bs => by
      cases bs with
      | nil => simp [JVal.beqL]
      | cons b bs =>
        simp [JVal.beqL, JVal.beq_iff a b, JVal.beqL_iff as bs]

theorem JVal.beqO_iff : ∀ (as bs : List (String × JVal)), (JVal.beqO as bs = true) ↔ as = bs
  | [], bs => by cases bs <;> simp [JVal.beqO]
  | (k, a) :: as, bs => by
      cases bs with
      | nil => simp [JVal.beqO]
      | cons p bs =>
        cases p with
        | mk l b =>
          simp [JVal.beqO, JVal.beq_iff a b, JVal.beqO_iff as bs, and_assoc]

end

instance : DecidableEq JVal := fun a b => decidable_of_iff _ (JVal.beq_iff a b)

/-! ### Python string primitives used by the source -/

/-- Split a character list at every character satisfying `p`, keeping empty
pieces, as Python's `str.split(sep)` does for a one-character separator. -/
def splitOnPred (p : Char → Bool) : List Char → List (List Char)
  | [] => [[]]
  | c :: rest =>
    let r := splitOnPred p rest
    if p c then [] :: r else (c :: r.headD []) :: r.tail

/-- `results.split("\n")`: the line list of the tool output. -/
def pyLines (s : String) : List String :=
  (splitOnPred (fun c => c = '\n') s.toList).map String.mk

/-- `str.split()` with no argument (as in `result.split()` on a table row):
split on runs of whitespace, discarding empty pieces.  Rows of the ATA table
contain no newline, so the ASCII whitespace test suffices. -/
def pySplitWs (s : String) : List String :=
  ((splitOnPred Char.isWhitespace s.toList).map String.mk).filter (fun t => t ≠ "")

/-- Validity of the digit part of a Python integer literal after its first
digit: digits with single underscores strictly between digits. -/
def pyDigitsRest : List Char → Bool
  | [] => true
  | '_' :: c :: rest => c.isDigit && pyDigitsRest rest
  | c :: rest => c.isDigit && pyDigitsRest rest

/-- Validity of the digit part of a Python integer literal: a digit followed
by digits with single underscores strictly between digits. -/
def pyDigits : List Char → Bool
  | [] => false
  | c :: rest => c.isDigit && pyDigitsRest rest

/-- Numeric value of a list of decimal digit characters. -/
def digitsToNat (cs : List Char) : Nat :=
  cs.foldl (fun a c => 10 * a + (c.toNat - 48)) 0

/-- Numeric value of a valid Python digit string (underscores ignored). -/
def pyIntOfDigits (cs : List Char) : Nat :=
  digitsToNat (cs.filter (fun c => c ≠ '_'))

/-- Python's `int(s)` on a whitespace-free token (the tokens fed to it in
`smart_sat` come from `str.split()` so carry no surrounding whitespace):
an optional sign followed by decimal digits, underscores allowed strictly
between digits; any other shape raises `ValueError`, modelled as `none`. -/
def pyInt? (s : String) : Option Int :=
  match s.toList with
  | '+' :: rest => if pyDigits rest then some (Int.ofNat (pyIntOfDigits rest)) else none
  | '-' :: rest => if pyDigits rest then some (-(Int.ofNat (pyIntOfDigits rest))) else none
  | cs => if pyDigits cs then some (Int.ofNat (pyIntOfDigits cs)) else none

/-- Python's `hex(n)`: `0x` followed by lowercase hexadecimal digits, with a
leading `-` for negative numbers. -/
def pyHex (n : Int) : String :=
  match n with
  | Int.ofNat m => "0x" ++ String.mk (Nat.toDigits 16 m)
  | Int.negSucc m => "-0x" ++ String.mk (Nat.toDigits 16 (m + 1))

/-- Python's `s.replace(a, b)` for single-character `a` and `b`: a
character-by-character substitution. -/
def pyReplaceChar (a b : Char) (s : String) : String :=
  String.mk (s.toList.map (fun c => if c = a then b else c))

/-- Python's `s.replace(a, "")` for a single-character `a`: drop every
occurrence of the character. -/
def pyDropChar (a : Char) (s : String) : String :=
  String.mk (s.toList.filter (fun c => c ≠ a))

/-- The character scan of `drive.replace("/dev/", "")`: left to right,
non-overlapping, every occurrence of `/dev/` is dropped. -/
def stripDevChars : List Char → List Char
  | '/' :: 'd' :: 'e' :: 'v' :: '/' :: rest => stripDevChars rest
  | c :: rest => c :: stripDevChars rest
  | [] => []

/-- `drive.replace("/dev/", "")`: the label value used for a device. -/
def pyStripDev (drive : String) : String :=
  String.mk (stripDevChars drive.toList)

/-- Python's `s.lower()`: lowercase each character (ASCII range; attribute
keys and the smartctl vocabulary are ASCII). -/
def pyLower (s : String) : String :=
  String.mk (s.toList.map Char.toLower)

/-- The metric-name body computed in `collect`:
`key.replace("-","_").replace(" ","_").replace(".","").replace("/","_").lower()`.
Every pattern is a single character, so each `replace` acts character by
character. -/
def sanitizeKey (key : String) : String :=
  pyLower (pyReplaceChar '/' '_' (pyDropChar '.'
    (pyReplaceChar ' ' '_' (pyReplaceChar '-' '_' key))))

/-- The full gauge name `f"smartprom_{name}"` registered in `collect`. -/
def smartName (key : String) : String :=
  "smartprom_" ++ sanitizeKey key

/-- The help-text tail `key.replace("_", " ")` computed in `collect`. -/
def descOf (key : String) : String :=
  pyReplaceChar '_' ' ' key

/-- The gauge help text `f"({num}) {desc}"` built in `collect`, where `num`
is `hex` of the representative number of the first observation. -/
def helpOf (key : String) (n : Int) : String :=
  "(" ++ pyHex n ++ ") " ++ descOf key

/-- Acceptance of the exponent part of a Python float literal:
empty, or `e`/`E`, an optional sign, and a nonempty digit string. -/
def pyFloatExp : List Char → Bool
  | [] => true
  | 'e' :: rest => pyDigits (match rest with | '+' :: r => r | '-' :: r => r | r => r)
  | 'E' :: rest => pyDigits (match rest with | '+' :: r => r | '-' :: r => r | r => r)
  | _ => false

/-- Acceptance of the unsigned numeric part of a Python float literal:
`digits [. digits] [exp]` or `. digits [exp]`. -/
def pyFloatNum (cs : List Char) : Bool :=
  let intPart := cs.takeWhile Char.isDigit
  let rest := cs.dropWhile Char.isDigit
  match rest with
  | '.' :: r =>
      let frac := r.takeWhile Char.isDigit
      (intPart ≠ [] || frac ≠ []) && pyFloatExp (r.dropWhile Char.isDigit)
  | r => intPart ≠ [] && pyFloatExp r

/-- Python's `float(s)` acceptance on a string: optional surrounding
whitespace, optional sign, then a decimal float literal or one of
`inf`/`infinity`/`nan` case-insensitively.  (Underscores between digits are
also accepted by CPython; no property in this file depends on a string
reaching `float`, so the plain-digit grammar is used.) -/
def pyFloatStr (s : String) : Bool :=
  let cs := ((s.toList.dropWhile Char.isWhitespace).reverse.dropWhile Char.isWhitespace).reverse
  let cs := match cs with
    | '+' :: r => r
    | '-' :: r => r
    | r => r
  let low := cs.map Char.toLower
  low = "inf".toList || low = "infinity".toList || low = "nan".toList || pyFloatNum cs

/-- Whether Python's `float(v)` succeeds on a `json.loads` value, as required
by `Gauge.set`. -/
def canPyFloat : JVal → Bool
  | .jint _ => true
  | .jbool _ => true
  | .jfloat => true
  | .jstr s => pyFloatStr s
  | _ => false

/-- The integer `hex(v)` formats when `v` is a `json.loads` value: `int`
itself, `bool` as 0/1 (a subclass of `int`); any other runtime type raises
`TypeError`, modelled as `none`. -/
def canPyHex : JVal → Option Int
  | .jint n => some n
  | .jbool b => some (if b then 1 else 0)
  | _ => none

/-! ### Python dicts as association lists -/

/-- Lookup in an association list modelling a Python dict. -/
def alookup {K V : Type} [DecidableEq K] (k : K) : List (K × V) → Option V
  | [] => none
  | (k', v) :: rest => if k' = k then some v else alookup k rest

/-- `d[k] = v` on a Python dict: update the value in place if the key is
present (keeping its position), otherwise append the pair at the end. -/
def dinsert {K V : Type} [DecidableEq K] (k : K) (v : V) : List (K × V) → List (K × V)
  | [] => [(k, v)]
  | (k', v') :: rest => if k' = k then (k, v) :: rest else (k', v') :: dinsert k v rest

/-- The key list of an association list. -/
def keysOf {K V : Type} (l : List (K × V)) : List K :=
  l.map Prod.fst

/-- Folding `dinsert` over a batch of pairs, as repeated `d[k] = v`. -/
def dinsertAll {K V : Type} [DecidableEq K] (acc : List (K × V)) (l : List (K × V)) :
    List (K × V) :=
  l.foldl (fun a p => dinsert p.1 p.2 a) acc

theorem alookup_dinsert_self {K V : Type} [DecidableEq K] (k : K) (v : V)
    (l : List (K × V)) : alookup k (dinsert k v l) = some v := by
  induction l with
  | nil => simp [dinsert, alookup]
  | cons p rest ih =>
    obtain ⟨pk, pv⟩ := p
    by_cases h : pk = k
    · simp [dinsert, alookup, h]
    · simpa [dinsert, alookup, h] using ih

theorem alookup_dinsert_ne {K V : Type} [DecidableEq K] {k k' : K} (v : V)
    (l : List (K × V)) (h : k' ≠ k) :
    alookup k' (dinsert k v l) = alookup k' l := by
  induction l with
  | nil =>
    simp only [dinsert, alookup]
    rw [if_neg (fun hh => h hh.symm)]
  | cons p rest ih =>
    obtain ⟨pk, pv⟩ := p
    by_cases hp : pk = k
    · subst hp
      simp only [dinsert, if_pos rfl, alookup]
      rw [if_neg (fun hh => h hh.symm), if_neg (fun hh => h hh.symm)]
    · simp only [dinsert, if_neg hp, alookup]
      by_cases hk' : pk = k'
      · simp [hk']
      · simp [hk', ih]

theorem alookup_eq_none {K V : Type} [DecidableEq K] {k : K} {l : List (K × V)}
    (h : k ∉ keysOf l) : alookup k l = none := by
  induction l with
  | nil => rfl
  | cons p rest ih =>
    obtain ⟨pk, pv⟩ := p
    simp only [keysOf, List.map_cons, List.mem_cons, not_or] at h
    simp only [alookup, if_neg (fun hh : pk = k => h.1 hh.symm)]
    exact ih (by simpa [keysOf] using h.2)

theorem dinsert_of_not_mem {K V : Type} [DecidableEq K] {k : K} (v : V)
    {l : List (K × V)} (h : k ∉ keysOf l) : dinsert k v l = l ++ [(k, v)] := by
  induction l with
  | nil => rfl
  | cons p rest ih =>
    obtain ⟨pk, pv⟩ := p
    simp only [keysOf, List.map_cons, List.mem_cons, not_or] at h
    simp only [dinsert, if_neg (fun hh : pk = k => h.1 hh.symm), List.cons_append,
      List.cons.injEq, true_and]
    exact ih (by simpa [keysOf] using h.2)

theorem dinsertAll_append {K V : Type} [DecidableEq K] {acc l : List (K × V)}
    (hnd : (keysOf (acc ++ l)).Nodup) : dinsertAll acc l = acc ++ l := by
  induction l generalizing acc with
  | nil => simp [dinsertAll]
  | cons p rest ih =>
    have hnd2 := hnd
    rw [keysOf, List.map_append, List.nodup_append] at hnd2
    have hfresh : p.1 ∉ keysOf acc := fun hmem =>
      hnd2.2.2 (by simpa [keysOf] using hmem) (by simp)
    have step : dinsert p.1 p.2 acc = acc ++ [p] := by
      simpa using dinsert_of_not_mem p.2 hfresh
    have hnd' : (keysOf ((acc ++ [p]) ++ rest)).Nodup := by
      simpa [keysOf, List.append_assoc] using hnd
    calc dinsertAll acc (p :: rest)
        = dinsertAll (dinsert p.1 p.2 acc) rest := rfl
      _ = dinsertAll (acc ++ [p]) rest := by rw [step]
      _ = (acc ++ [p]) ++ rest := ih hnd'
      _ = acc ++ p :: rest := by simp

theorem alookup_of_mem_nodup {K V : Type} [DecidableEq K] {k : K} {v : V}
    {l : List (K × V)} (hnd : (keysOf l).Nodup) (hmem : (k, v) ∈ l) :
    alookup k l = some v := by
  induction l with
  | nil => cases hmem
  | cons p rest ih =>
    obtain ⟨pk, pv⟩ := p
    simp only [keysOf, List.map_cons, List.nodup_cons] at hnd
    rcases List.mem_cons.mp hmem with h | h
    · injection h with h1 h2
      subst h1
      subst h2
      simp [alookup]
    · have hne : pk ≠ k := by
        rintro rfl
        exact hnd.1 (by simpa using List.mem_map_of_mem Prod.fst h)
      simp only [alookup, if_neg hne]
      exact ih hnd.2 h

/-! ### The ATA/SAT extractor `smart_sat` -/

/-- The exact column header line `smart_sat` looks for. -/
def HEADER : String :=
  "ID# ATTRIBUTE_NAME          FLAG     VALUE WORST THRESH TYPE      UPDATED  WHEN_FAILED RAW_VALUE"

/-- The dict writes one post-header table line performs, in order
(transcribed from the body of the line loop of `smart_sat`): a line of at
most 3 tokens writes nothing; a longer line writes
`tokens[1] ↦ (int(tokens[0]), int(tokens[3]))` and then, exactly when token 9
exists and parses as an integer (`raw` survives the bare `except`),
`tokens[1] + "_raw" ↦ (int(tokens[0]), raw)`.  A failing `int(tokens[0])` or
`int(tokens[3])` raises `ValueError` out of the function, modelled as
`none`. -/
def satRowObs (line : String) : Option (List (String × (Int × Int))) :=
  match pySplitWs line with
  | t0 :: t1 :: _t2 :: t3 :: ts =>
    match pyInt? t0, pyInt? t3 with
    | some i, some v =>
      match (ts.get? 5).bind pyInt? with
      | some r => some [(t1, (i, v)), (t1 ++ "_raw", (i, r))]
      | none => some [(t1, (i, v))]
    | _, _ => none
  | _ => some []

/-- The line loop of `smart_sat`: skip empty lines, set the flag on the exact
header line, and once the header has been seen apply each line's dict writes
(`satRowObs`) to the accumulated `attributes` dict, propagating the
uncaught `ValueError` of a bad ID or value column. -/
def satAux : Bool → List (String × (Int × Int)) → List String →
    Option (List (String × (Int × Int)))
  | _, acc, [] => some acc
  | gotHeader, acc, line :: rest =>
    if line = "" then satAux gotHeader acc rest
    else if line = HEADER then satAux true acc rest
    else if gotHeader then
      match satRowObs line with
      | some os => satAux gotHeader (dinsertAll acc os) rest
      | none => none
    else satAux gotHeader acc rest

/-- The pure processing part of `smart_sat`, applied to the text the tool
printed: split on newlines and run the line loop with the header flag unset
and an empty attribute dict. -/
def smart_sat_process (results : String) : Option (List (String × (Int × Int))) :=
  satAux false [] (pyLines results)

/-- All observations of a list of table rows, in row order. -/
def satObsJoin (rows : List String) : List (String × (Int × Int)) :=
  (rows.map (fun r => (satRowObs r).getD [])).flatten

theorem satAux_no_header {lines : List String} (h : HEADER ∉ lines)
    (acc : List (String × (Int × Int))) :
    satAux false acc lines = some acc := by
  induction lines with
  | nil => rfl
  | cons line rest ih =>
    simp only [List.mem_cons, not_or] at h
    have hline : line ≠ HEADER := fun hh => h.1 hh.symm
    by_cases he : line = ""
    · simpa [satAux, he] using ih h.2
    · simp only [satAux, if_neg he, if_neg hline, if_neg Bool.false_ne_true]
      exact ih h.2

theorem satAux_through_header {pre : List String} (h : HEADER ∉ pre)
    (rows : List String) (acc : List (String × (Int × Int))) :
    satAux false acc (pre ++ HEADER :: rows) = satAux true acc rows := by
  induction pre with
  | nil =>
    have h1 : HEADER ≠ "" := by decide
    simp [satAux, if_neg h1]
  | cons line rest ih =>
    simp only [List.mem_cons, not_or] at h
    have hline : line ≠ HEADER := fun hh => h.1 hh.symm
    by_cases he : line = ""
    · simpa [satAux, he] using ih h.2
    · simp only [List.cons_append, satAux, if_neg he, if_neg hline,
        if_neg Bool.false_ne_true]
      exact ih h.2

theorem satAux_rows {rows : List String}
    (h : ∀ r ∈ rows, r ≠ "" ∧ r ≠ HEADER ∧ (satRowObs r).isSome)
    (acc : List (String × (Int × Int))) :
    satAux true acc rows = some (dinsertAll acc (satObsJoin rows)) := by
  induction rows generalizing acc with
  | nil => simp [satAux, satObsJoin, dinsertAll]
  | cons line rest ih =>
    obtain ⟨hne, hnh, hsome⟩ := h line (by simp)
    rcases hobs : satRowObs line with _ | os
    · rw [hobs] at hsome; cases hsome
    rw [show satAux true acc (line :: rest) = satAux true (dinsertAll acc os) rest by
      simp [satAux, if_neg hne, if_neg hnh, hobs],
      ih (fun r hr => h r (List.mem_cons_of_mem _ hr))]
    simp only [satObsJoin, List.map_cons, List.flatten_cons, hobs, Option.getD_some,
      dinsertAll, List.foldl_append]

/-! ### The NVMe extractor `smart_nvme` -/

/-- Python iteration over a `json.loads` value, as `enumerate(v, start=1)`
performs it: a list yields its elements, a string its characters (as
one-character strings), a dict its keys; `int`, `float`, `bool` and `None`
are not iterable (`TypeError`, modelled as `none`). -/
def iterElems : JVal → Option (List JVal)
  | .jarr xs => some xs
  | .jstr s => some (s.toList.map (fun c => JVal.jstr (String.mk [c])))
  | .jobj fs => some (fs.map (fun p => JVal.jstr p.1))
  | _ => none

/-- The dict writes the `temperature_sensors` branch performs:
`attributes["temperature_sensor{i}"] = value` for `i = 1, 2, ...` over the
elements in order. -/
def sensorObs (xs : List JVal) : List (String × JVal) :=
  (List.enumFrom 1 xs).map (fun p => ("temperature_sensor" ++ toString p.1, p.2))

/-- The dict writes one field of the NVMe health log performs: the sensor
expansion for the `temperature_sensors` key, the field itself otherwise.
`none` models the `TypeError` of enumerating a non-iterable sensor value. -/
def nvmeFieldObs (k : String) (v : JVal) : Option (List (String × JVal)) :=
  if k = "temperature_sensors" then (iterElems v).map sensorObs
  else some [(k, v)]

/-- The field loop of `smart_nvme` over `health_info.items()`. -/
def nvmeAux : List (String × JVal) → List (String × JVal) → Option (List (String × JVal))
  | acc, [] => some acc
  | acc, (k, v) :: rest =>
    match nvmeFieldObs k v with
    | some os => nvmeAux (dinsertAll acc os) rest
    | none => none

/-- The pure processing part of `smart_nvme`, applied to the `json.loads` of
the tool output: index the document with `"nvme_smart_health_information_log"`
(`KeyError`/`TypeError` on other shapes, modelled as `none`), then flatten
its fields; `health_info.items()` on a non-dict raises, also `none`. -/
def smart_nvme_process (doc : JVal) : Option (List (String × JVal)) :=
  match doc with
  | .jobj top =>
    match alookup "nvme_smart_health_information_log" top with
    | some (.jobj fields) => nvmeAux [] fields
    | _ => none
  | _ => none

/-- All observations of the NVMe health-log fields, in field order. -/
def nvmeObsJoin (fields : List (String × JVal)) : List (String × JVal) :=
  (fields.map (fun p => (nvmeFieldObs p.1 p.2).getD [])).flatten

theorem nvmeAux_fields {fields : List (String × JVal)}
    (h : ∀ p ∈ fields, (nvmeFieldObs p.1 p.2).isSome)
    (acc : List (String × JVal)) :
    nvmeAux acc fields = some (dinsertAll acc (nvmeObsJoin fields)) := by
  induction fields generalizing acc with
  | nil => simp [nvmeAux, nvmeObsJoin, dinsertAll]
  | cons p rest ih =>
    obtain ⟨k, v⟩ := p
    have hsome := h (k, v) (by simp)
    rcases hobs : nvmeFieldObs k v with _ | os
    · rw [hobs] at hsome; cases hsome
    show (match nvmeFieldObs k v with
      | some os => nvmeAux (dinsertAll acc os) rest
      | none => none) = _
    rw [hobs]
    show nvmeAux (dinsertAll acc os) rest = _
    rw [ih (fun q hq => h q (List.mem_cons_of_mem _ hq))]
    simp only [nvmeObsJoin, List.map_cons, List.flatten_cons, hobs, Option.getD_some,
      dinsertAll, List.foldl_append]

/-! ### The SCSI extractor `smart_scsi` -/

/-- The dict writes one top-level field of the SCSI document performs
(transcribed from the field loop of `smart_scsi`): a dict value is descended
one level and every nested `int` is written as `"{key}_{label}"`; a top-level
`int` is written under its own key; every other runtime type writes
nothing. -/
def scsiFieldObs (k : String) (v : JVal) : List (String × JVal) :=
  match v with
  | .jobj inner =>
    inner.filterMap (fun q =>
      match q.2 with
      | .jint m => some (k ++ "_" ++ q.1, JVal.jint m)
      | _ => none)
  | .jint n => [(k, JVal.jint n)]
  | _ => []

/-- The field loop of `smart_scsi` over `data.items()`. -/
def scsiAux : List (String × JVal) → List (String × JVal) → List (String × JVal)
  | acc, [] => acc
  | acc, (k, v) :: rest => scsiAux (dinsertAll acc (scsiFieldObs k v)) rest

/-- The pure processing part of `smart_scsi`, applied to the `json.loads` of
the tool output; `data.items()` on a non-dict raises (`none`). -/
def smart_scsi_process (doc : JVal) : Option (List (String × JVal)) :=
  match doc with
  | .jobj fields => some (scsiAux [] fields)
  | _ => none

/-- All observations of the SCSI document fields, in field order. -/
def scsiObsJoin (fields : List (String × JVal)) : List (String × JVal) :=
  (fields.map (fun p => scsiFieldObs p.1 p.2)).flatten

theorem scsiAux_fields (fields : List (String × JVal)) (acc : List (String × JVal)) :
    scsiAux acc fields = dinsertAll acc (scsiObsJoin fields) := by
  induction fields generalizing acc with
  | nil => simp [scsiAux, scsiObsJoin, dinsertAll]
  | cons p rest ih =>
    obtain ⟨k, v⟩ := p
    show scsiAux (dinsertAll acc (scsiFieldObs k v)) rest = _
    rw [ih]
    simp only [scsiObsJoin, List.map_cons, List.flatten_cons, dinsertAll, List.foldl_append]

/-! ### The metric registry maintained inline in `collect` -/

/-- A `prometheus_client` gauge as `collect` uses it: the registered name and
help text (both fixed at construction), and the latest value per `drive`
label.  The stored entry records the observation fed to `set`; the library
itself keeps `float(value)`. -/
structure Metric where
  name : String
  help : String
  values : List (String × JVal)
  deriving DecidableEq

/-- The global `METRICS` dict: raw attribute key to gauge. -/
abbrev Registry := List (String × Metric)

/-- `METRICS[key].labels(label).set(value)`: update the stored value of the
gauge registered under `key` for this drive's label, leaving name and help
untouched. -/
def setGaugeVal (key label : String) (jv : JVal) (st : Registry) : Registry :=
  st.map (fun p =>
    if p.1 = key then (p.1, ⟨p.2.name, p.2.help, dinsert label jv p.2.values⟩)
    else p)

/-- One iteration of the attribute loop of `collect` for a `"sat"` device,
whose observations are `(int, int)` pairs: on first sight of `key` register a
gauge named `f"smartprom_{name}"` with help `f"({hex(values[0])}) {desc}"`
(note: `hex` of `values[0]`, the attribute ID), then set the value for this
drive's label to `values[1]`.  `hex` and `set` cannot fail on `int`s. -/
def observeSat (label : String) (st : Registry) (key : String) (v : Int × Int) :
    Registry :=
  match alookup key st with
  | some _ => setGaugeVal key label (JVal.jint v.2) st
  | none =>
    setGaugeVal key label (JVal.jint v.2)
      (dinsert key ⟨smartName key, helpOf key v.1, []⟩ st)

/-- One iteration of the attribute loop of `collect` for an `"nvme"` or
`"scsi"` device, whose observation is the raw `json.loads` value: on first
sight, `hex(values)` raises `TypeError` unless the value is an `int` (or
`bool`); then `.set(values)` raises unless `float(values)` succeeds.  The
returned flag is `false` when the iteration raised, in which case the writes
made so far persist (the `except` sits around the whole per-device body). -/
def observeJ (label : String) (st : Registry) (key : String) (v : JVal) :
    Registry × Bool :=
  match alookup key st with
  | some _ =>
    if canPyFloat v then (setGaugeVal key label v st, true)
    else (st, false)
  | none =>
    match canPyHex v with
    | some n =>
      let st1 := dinsert key ⟨smartName key, helpOf key n, []⟩ st
      if canPyFloat v then (setGaugeVal key label v st1, true)
      else (st1, false)
    | none => (st, false)

/-- The attribute loop of `collect` for a `"sat"` device. -/
def satUpdate (label : String) : Registry → List (String × (Int × Int)) → Registry
  | st, [] => st
  | st, (k, v) :: rest => satUpdate label (observeSat label st k v) rest

/-- The attribute loop of `collect` for an `"nvme"`/`"scsi"` device; an
exception in one iteration aborts the remaining attributes of this device but
keeps the registry writes already made. -/
def jUpdate (label : String) : Registry → List (String × JVal) → Registry
  | st, [] => st
  | st, (k, v) :: rest =>
    match observeJ label st k v with
    | (st', true) => jUpdate label st' rest
    | (st', false) => st'

/-- The environment of one sweep: what each `smartctl -A` invocation yields
for a device path.  `none` models a non-zero exit status (`run` raises), and,
for the JSON modes, also a `json.loads` failure; both raise before any
processing of the device. -/
structure Env where
  sat : String → Option String
  nvme : String → Option JVal
  scsi : String → Option JVal

/-- The per-device body of `collect`, with the surrounding
`try`/`except Exception` applied: dispatch on the device's type string,
extract, and feed every attribute into the registry; any failure (bad type
for the subprocess argument, non-zero exit, malformed output, or an attribute
iteration raising) leaves the loop to continue with the registry as mutated
so far.  An unrecognized type string logs a warning and skips the device. -/
def processDevice (env : Env) (st : Registry) (drive typ : JVal) : Registry :=
  if typ = JVal.jstr "sat" then
    match drive with
    | .jstr d =>
      match (env.sat d).bind smart_sat_process with
      | some attrs => satUpdate (pyStripDev d) st attrs
      | none => st
    | _ => st
  else if typ = JVal.jstr "nvme" then
    match drive with
    | .jstr d =>
      match (env.nvme d).bind smart_nvme_process with
      | some attrs => jUpdate (pyStripDev d) st attrs
      | none => st
    | _ => st
  else if typ = JVal.jstr "scsi" then
    match drive with
    | .jstr d =>
      match (env.scsi d).bind smart_scsi_process with
      | some attrs => jUpdate (pyStripDev d) st attrs
      | none => st
    | _ => st
  else st

/-- One full sweep of `collect` over the discovered `DRIVES` items. -/
def collectSweep (env : Env) (st : Registry) (drives : List (JVal × JVal)) : Registry :=
  drives.foldl (fun s p => processDevice env s p.1 p.2) st

/-- Repeated sweeps over the same (statically discovered) drive set, each
with its own tool behaviour: the registry over the process lifetime. -/
def multiSweep (drives : List (JVal × JVal)) : List Env → Registry → Registry
  | [], st => st
  | env :: rest, st => multiSweep drives rest (collectSweep env st drives)

/-- Whether the extraction step (the `smart_*` call) for a device raises:
the tool exits non-zero, its output is malformed, or the device path is not
even a string (the subprocess invocation raises `TypeError`).  An
unsupported type string is a logged skip, not a failure. -/
def extractionFailed (env : Env) (drive typ : JVal) : Bool :=
  if typ = JVal.jstr "sat" then
    match drive with
    | .jstr d => ((env.sat d).bind smart_sat_process).isNone
    | _ => true
  else if typ = JVal.jstr "nvme" then
    match drive with
    | .jstr d => ((env.nvme d).bind smart_nvme_process).isNone
    | _ => true
  else if typ = JVal.jstr "scsi" then
    match drive with
    | .jstr d => ((env.scsi d).bind smart_scsi_process).isNone
    | _ => true
  else false

/-- All `drive` label values present anywhere in the registry. -/
def registryLabels (st : Registry) : List String :=
  (st.map (fun p => keysOf p.2.values)).flatten

/-! ### Device discovery `get_drives` -/

/-- The device-entry loop of `get_drives`: an entry carrying an `open_error`
key is skipped with a warning (whose `.format(**device)` itself raises
`KeyError` unless `name`, `type` and `protocol` are also present); otherwise
`disks[device["name"]] = device["type"]` (raising `KeyError` when `name` or
`type` is missing).  A non-dict entry raises on the `in` test or the
indexing.  An uncaught exception is modelled as `none`. -/
def getDrivesAux : List (JVal × JVal) → List JVal → Option (List (JVal × JVal))
  | acc, [] => some acc
  | acc, JVal.jobj fs :: rest =>
    if (alookup "open_error" fs).isSome then
      if (alookup "name" fs).isSome ∧ (alookup "type" fs).isSome ∧
          (alookup "protocol" fs).isSome then
        getDrivesAux acc rest
      else none
    else
      match alookup "name" fs, alookup "type" fs with
      | some n, some t => getDrivesAux (dinsert n t acc) rest
      | _, _ => none
  | _, _ :: _ => none

/-- `get_drives` applied to the `json.loads` of the scan output: read the
top-level `devices` entry (defaulting to an empty dict when absent) and fold
the entry loop.  A `devices` value that is not a list is only harmless when
empty (iterating an empty dict or string does nothing); any non-empty
non-list shape raises inside the loop. -/
def get_drives (scanDoc : JVal) : Option (List (JVal × JVal)) :=
  match scanDoc with
  | .jobj top =>
    match alookup "devices" top with
    | some (.jarr devs) => getDrivesAux [] devs
    | some (.jobj []) => some []
    | some (.jstr "") => some []
    | some _ => none
    | none => some []
  | _ => none

/-! ### The polling loop of `main` -/

/-- The scheduler state of `main`: the time at which the last sweep started
and how many sweeps have run. -/
structure LoopState where
  startTime : ℚ
  sweepCount : Nat
  deriving DecidableEq

/-- One iteration of the `while True` loop of `main` observed at time `now`:
`collect` runs exactly when `elapsed_time > SCAN_EVERY_SECONDS` (a strict
comparison), and then `start_time` is reset. -/
def loopTick (interval : ℚ) (st : LoopState) (now : ℚ) : LoopState :=
  if now - st.startTime > interval then ⟨now, st.sweepCount + 1⟩ else st

/-! ### Character-level facts about the sanitization -/

/-- The character map of `replace("-", "_")`. -/
def repDash (c : Char) : Char := if c = '-' then '_' else c

/-- The character map of `replace(" ", "_")`. -/
def repSpace (c : Char) : Char := if c = ' ' then '_' else c

/-- The character map of `replace("/", "_")`. -/
def repSlash (c : Char) : Char := if c = '/' then '_' else c

/-- The character pipeline of the sanitization, at list level. -/
def sanChars (l : List Char) : List Char :=
  ((((l.map repDash).map repSpace).filter (fun c => c ≠ '.')).map repSlash).map Char.toLower

/-- The image of one kept character under the sanitization pipeline. -/
def sanCh (c : Char) : Char :=
  Char.toLower (repSlash (repSpace (repDash c)))

theorem sanitizeKey_eq (s : String) : sanitizeKey s = String.mk (sanChars s.toList) := rfl

theorem toNat_ofNat_valid {n : Nat} (h : n.isValidChar) : (Char.ofNat n).toNat = n := by
  rw [Char.ofNat, dif_pos h]
  rfl

theorem toLower_toNat_of_upper {c : Char} (h : 65 ≤ c.toNat ∧ c.toNat ≤ 90) :
    (Char.toLower c).toNat = c.toNat + 32 := by
  have hv : (c.toNat + 32).isValidChar := Or.inl (by omega)
  rw [Char.toLower]
  simp only [ge_iff_le, if_pos (And.intro h.1 h.2)]
  exact toNat_ofNat_valid hv

theorem toLower_of_not_upper {c : Char} (h : ¬(65 ≤ c.toNat ∧ c.toNat ≤ 90)) :
    Char.toLower c = c := by
  rw [Char.toLower]
  simp only [ge_iff_le]
  rw [if_neg h]

theorem toLower_not_upper (c : Char) :
    ¬(65 ≤ (Char.toLower c).toNat ∧ (Char.toLower c).toNat ≤ 90) := by
  by_cases h : 65 ≤ c.toNat ∧ c.toNat ≤ 90
  · rw [toLower_toNat_of_upper h]
    omega
  · rw [toLower_of_not_upper h]
    exact h

theorem toLower_idem (c : Char) : Char.toLower (Char.toLower c) = Char.toLower c :=
  toLower_of_not_upper (toLower_not_upper c)

theorem toLower_eq_low {c d : Char} (hd : d.toNat < 65) (h : Char.toLower c = d) :
    c = d := by
  by_cases hu : 65 ≤ c.toNat ∧ c.toNat ≤ 90
  · have := toLower_toNat_of_upper hu
    rw [h] at this
    omega
  · rwa [toLower_of_not_upper hu] at h

theorem repDash_ne (c : Char) : repDash c ≠ '-' := by
  unfold repDash
  by_cases h : c = '-' <;> simp [h]

theorem repSpace_ne (c : Char) : repSpace c ≠ ' ' := by
  unfold repSpace
  by_cases h : c = ' ' <;> simp [h]

theorem repSlash_ne (c : Char) : repSlash c ≠ '/' := by
  unfold repSlash
  by_cases h : c = '/' <;> simp [h]

theorem repSpace_dot (c : Char) : repSpace (repDash c) = '.' ↔ c = '.' := by
  unfold repSpace repDash
  by_cases h1 : c = '-' <;> by_cases h2 : c = ' ' <;> simp [h1, h2]

theorem sanCh_fix (c : Char) : sanCh (sanCh c) = sanCh c := by
  have hx1 : repSlash (repSpace (repDash c)) ≠ '-' := by
    have h1 := repDash_ne c
    unfold repSlash repSpace
    by_cases h2 : repDash c = ' ' <;> by_cases h3 : repDash c = '/' <;> simp_all
  have hx2 : repSlash (repSpace (repDash c)) ≠ ' ' := by
    have h1 := repSpace_ne (repDash c)
    unfold repSlash
    by_cases h3 : repSpace (repDash c) = '/' <;> simp_all
  have hx3 : repSlash (repSpace (repDash c)) ≠ '/' := repSlash_ne _
  set x := repSlash (repSpace (repDash c)) with hxdef
  have e1 : sanCh c ≠ '-' := fun h => hx1 (toLower_eq_low (by decide) h)
  have e2 : sanCh c ≠ ' ' := fun h => hx2 (toLower_eq_low (by decide) h)
  have e3 : sanCh c ≠ '/' := fun h => hx3 (toLower_eq_low (by decide) h)
  show Char.toLower (repSlash (repSpace (repDash (sanCh c)))) = sanCh c
  rw [show repDash (sanCh c) = sanCh c from if_neg e1,
    show repSpace (sanCh c) = sanCh c from if_neg e2,
    show repSlash (sanCh c) = sanCh c from if_neg e3]
  exact toLower_idem x

theorem sanCh_ne_dot {c : Char} (h : c ≠ '.') : sanCh c ≠ '.' := by
  intro hd
  have hx : repSlash (repSpace (repDash c)) = '.' := toLower_eq_low (by decide) hd
  have hsp : repSpace (repDash c) = '.' := by
    unfold repSlash at hx
    by_cases h3 : repSpace (repDash c) = '/' <;> simp_all
  exact h ((repSpace_dot c).mp hsp)

theorem sanChars_cons (c : Char) (l : List Char) :
    sanChars (c :: l) = if c = '.' then sanChars l else sanCh c :: sanChars l := by
  unfold sanChars
  by_cases h : c = '.'
  · subst h
    simp [List.filter_cons, repSpace_dot, repSpace, repDash]
  · have hkeep : repSpace (repDash c) ≠ '.' := fun hh => h ((repSpace_dot c).mp hh)
    simp only [List.map_cons, List.filter_cons]
    rw [if_pos (by simpa using hkeep), if_neg h]
    simp [sanCh]

theorem sanChars_idem (l : List Char) : sanChars (sanChars l) = sanChars l := by
  induction l with
  | nil => rfl
  | cons c l ih =>
    rw [sanChars_cons]
    by_cases h : c = '.'
    · simpa [h] using ih
    · rw [if_neg h, sanChars_cons, if_neg (sanCh_ne_dot h), sanCh_fix, ih]

theorem sanitizeKey_idem (s : String) :
    sanitizeKey (sanitizeKey s) = sanitizeKey s := by
  show String.mk (sanChars (sanChars s.toList)) = String.mk (sanChars s.toList)
  rw [sanChars_idem]

/-! ### Registry invariants: metadata preservation and label provenance -/

/-- `st'` keeps every metric of `st` with its name and help text intact. -/
def metaAgree (st st' : Registry) : Prop :=
  ∀ k m, alookup k st = some m → ∃ vs, alookup k st' = some ⟨m.name, m.help, vs⟩

theorem metaAgree_refl (st : Registry) : metaAgree st st :=
  fun _ m h => ⟨m.values, h⟩

theorem metaAgree_trans {s1 s2 s3 : Registry} (h12 : metaAgree s1 s2)
    (h23 : metaAgree s2 s3) : metaAgree s1 s3 := by
  intro k m h
  obtain ⟨vs, h2⟩ := h12 k m h
  obtain ⟨vs', h3⟩ := h23 k ⟨m.name, m.help, vs⟩ h2
  exact ⟨vs', h3⟩

theorem setGaugeVal_cons (key label : String) (jv : JVal) (pk : String)
    (pm : Metric) (rest : Registry) :
    setGaugeVal key label jv ((pk, pm) :: rest) =
      (if pk = key then (pk, ⟨pm.name, pm.help, dinsert label jv pm.values⟩)
        else (pk, pm)) :: setGaugeVal key label jv rest := by
  simp [setGaugeVal]

theorem alookup_setGaugeVal (key label : String) (jv : JVal) (st : Registry)
    (k : String) :
    alookup k (setGaugeVal key label jv st) =
      (alookup k st).map (fun m =>
        if k = key then ⟨m.name, m.help, dinsert label jv m.values⟩ else m) := by
  induction st with
  | nil => rfl
  | cons p rest ih =>
    obtain ⟨pk, pm⟩ := p
    rw [setGaugeVal_cons]
    by_cases h2 : pk = key
    · rw [if_pos h2]
      by_cases hk : pk = k
      · have hkk : k = key := hk.symm.trans h2
        simp [alookup, hk, hkk]
      · simp only [alookup, if_neg hk]
        exact ih
    · rw [if_neg h2]
      by_cases hk : pk = k
      · have hkk : ¬k = key := fun hh => h2 (hk.trans hh)
        simp [alookup, hk, hkk]
      · simp only [alookup, if_neg hk]
        exact ih

theorem metaAgree_setGaugeVal (key label : String) (jv : JVal) (st : Registry) :
    metaAgree st (setGaugeVal key label jv st) := by
  intro k m h
  rw [alookup_setGaugeVal, h]
  by_cases hk : k = key
  · exact ⟨dinsert label jv m.values, by simp [hk]⟩
  · exact ⟨m.values, by simp [hk]⟩

theorem metaAgree_dinsert_fresh {key : String} {st : Registry} (m0 : Metric)
    (h : alookup key st = none) : metaAgree st (dinsert key m0 st) := by
  intro k m hk
  refine ⟨m.values, ?_⟩
  have hne : k ≠ key := by
    rintro rfl
    rw [hk] at h
    cases h
  rw [alookup_dinsert_ne _ _ hne]
  exact hk

theorem metaAgree_observeSat (label : String) (st : Registry) (key : String)
    (v : Int × Int) : metaAgree st (observeSat label st key v) := by
  rcases h : alookup key st with _ | m
  · simp only [observeSat, h]
    exact metaAgree_trans
      (metaAgree_dinsert_fresh ⟨smartName key, helpOf key v.1, []⟩ h)
      (metaAgree_setGaugeVal key label (JVal.jint v.2) _)
  · simp only [observeSat, h]
    exact metaAgree_setGaugeVal key label (JVal.jint v.2) st

theorem metaAgree_observeJ (label : String) (st : Registry) (key : String)
    (v : JVal) : metaAgree st (observeJ label st key v).1 := by
  rcases h : alookup key st with _ | m
  · rcases hx : canPyHex v with _ | n
    · simp only [observeJ, h, hx]
      exact metaAgree_refl st
    · by_cases hf : canPyFloat v = true
      · simp only [observeJ, h, hx, if_pos hf]
        exact metaAgree_trans
          (metaAgree_dinsert_fresh ⟨smartName key, helpOf key n, []⟩ h)
          (metaAgree_setGaugeVal key label v _)
      · simp only [observeJ, h, hx, if_neg hf]
        exact metaAgree_dinsert_fresh ⟨smartName key, helpOf key n, []⟩ h
  · by_cases hf : canPyFloat v = true
    · simp only [observeJ, h, if_pos hf]
      exact metaAgree_setGaugeVal key label v st
    · simp only [observeJ, h, if_neg hf]
      exact metaAgree_refl st

theorem metaAgree_satUpdate (label : String) :
    ∀ (attrs : List (String × (Int × Int))) (st : Registry),
      metaAgree st (satUpdate label st attrs)
  | [], st => metaAgree_refl st
  | (k, v) :: rest, st =>
    metaAgree_trans (metaAgree_observeSat label st k v)
      (metaAgree_satUpdate label rest (observeSat label st k v))

theorem metaAgree_jUpdate (label : String) :
    ∀ (attrs : List (String × JVal)) (st : Registry),
      metaAgree st (jUpdate label st attrs)
  | [], st => metaAgree_refl st
  | (k, v) :: rest, st => by
    show metaAgree st
      (match observeJ label st k v with
        | (st', true) => jUpdate label st' rest
        | (st', false) => st')
    rcases ho : observeJ label st k v with ⟨st', b⟩
    have hst' : metaAgree st st' := by
      have := metaAgree_observeJ label st k v
      rwa [ho] at this
    cases b
    · exact hst'
    · exact metaAgree_trans hst' (metaAgree_jUpdate label rest st')

theorem metaAgree_processDevice (env : Env) (st : Registry) (drive typ : JVal) :
    metaAgree st (processDevice env st drive typ) := by
  unfold processDevice
  by_cases h1 : typ = JVal.jstr "sat"
  · rw [if_pos h1]
    cases drive with
    | jstr d =>
      show metaAgree st
        (match (env.sat d).bind smart_sat_process with
          | some attrs => satUpdate (pyStripDev d) st attrs
          | none => st)
      rcases hx : (env.sat d).bind smart_sat_process with _ | attrs
      · exact metaAgree_refl st
      · exact metaAgree_satUpdate _ _ st
    | jnull => exact metaAgree_refl st
    | jbool b => exact metaAgree_refl st
    | jint n => exact metaAgree_refl st
    | jfloat => exact metaAgree_refl st
    | jarr xs => exact metaAgree_refl st
    | jobj fs => exact metaAgree_refl st
  · rw [if_neg h1]
    by_cases h2 : typ = JVal.jstr "nvme"
    · rw [if_pos h2]
      cases drive with
      | jstr d =>
        show metaAgree st
          (match (env.nvme d).bind smart_nvme_process with
            | some attrs => jUpdate (pyStripDev d) st attrs
            | none => st)
        rcases hx : (env.nvme d).bind smart_nvme_process with _ | attrs
        · exact metaAgree_refl st
        · exact metaAgree_jUpdate _ _ st
      | jnull => exact metaAgree_refl st
      | jbool b => exact metaAgree_refl st
      | jint n => exact metaAgree_refl st
      | jfloat => exact metaAgree_refl st
      | jarr xs => exact metaAgree_refl st
      | jobj fs => exact metaAgree_refl st
    · rw [if_neg h2]
      by_cases h3 : typ = JVal.jstr "scsi"
      · rw [if_pos h3]
        cases drive with
        | jstr d =>
          show metaAgree st
            (match (env.scsi d).bind smart_scsi_process with
              | some attrs => jUpdate (pyStripDev d) st attrs
              | none => st)
          rcases hx : (env.scsi d).bind smart_scsi_process with _ | attrs
          · exact metaAgree_refl st
          · exact metaAgree_jUpdate _ _ st
        | jnull => exact metaAgree_refl st
        | jbool b => exact metaAgree_refl st
        | jint n => exact metaAgree_refl st
        | jfloat => exact metaAgree_refl st
        | jarr xs => exact metaAgree_refl st
        | jobj fs => exact metaAgree_refl st
      · rw [if_neg h3]
        exact metaAgree_refl st

theorem metaAgree_collectSweep (env : Env) (drives : List (JVal × JVal)) :
    ∀ st : Registry, metaAgree st (collectSweep env st drives) := by
  induction drives with
  | nil => exact fun st => metaAgree_refl st
  | cons p rest ih =>
    intro st
    exact metaAgree_trans (metaAgree_processDevice env st p.1 p.2)
      (ih (processDevice env st p.1 p.2))

theorem registryLabels_cons (q : String × Metric) (l : Registry) :
    registryLabels (q :: l) = keysOf q.2.values ++ registryLabels l := rfl

theorem mem_keysOf_dinsert {K V : Type} [DecidableEq K] {x k : K} {v : V}
    {l : List (K × V)} (h : x ∈ keysOf (dinsert k v l)) : x = k ∨ x ∈ keysOf l := by
  induction l with
  | nil => simpa [dinsert, keysOf] using h
  | cons p rest ih =>
    obtain ⟨pk, pv⟩ := p
    by_cases hp : pk = k
    · subst hp
      simpa [dinsert, keysOf] using h
    · simp only [dinsert, if_neg hp, keysOf, List.map_cons, List.mem_cons] at h ⊢
      rcases h with h | h
      · exact Or.inr (Or.inl h)
      · rcases ih (by simpa [keysOf] using h) with h2 | h2
        · exact Or.inl h2
        · exact Or.inr (Or.inr (by simpa [keysOf] using h2))

theorem mem_dinsert {K V : Type} [DecidableEq K] {q : K × V} {k : K} {v : V}
    {l : List (K × V)} (h : q ∈ dinsert k v l) : q = (k, v) ∨ q ∈ l := by
  induction l with
  | nil => simpa [dinsert] using h
  | cons p rest ih =>
    obtain ⟨pk, pv⟩ := p
    by_cases hp : pk = k
    · subst hp
      simp only [dinsert, eq_self_iff_true, if_true, List.mem_cons] at h
      rcases h with h | h
      · exact Or.inl h
      · exact Or.inr (List.mem_cons_of_mem _ h)
    · simp only [dinsert, if_neg hp, List.mem_cons] at h ⊢
      rcases h with h | h
      · exact Or.inr (Or.inl h)
      · rcases ih h with h2 | h2
        · exact Or.inl h2
        · exact Or.inr (Or.inr h2)

theorem mem_labels_setGaugeVal {x : String} {key label : String} {jv : JVal}
    {st : Registry} (h : x ∈ registryLabels (setGaugeVal key label jv st)) :
    x = label ∨ x ∈ registryLabels st := by
  induction st with
  | nil => cases h
  | cons p rest ih =>
    obtain ⟨pk, pm⟩ := p
    rw [setGaugeVal_cons] at h
    by_cases h2 : pk = key
    · rw [if_pos h2] at h
      rw [registryLabels_cons] at h
      rcases List.mem_append.mp h with h | h
      · rcases mem_keysOf_dinsert h with h3 | h3
        · exact Or.inl h3
        · exact Or.inr (by rw [registryLabels_cons]; exact List.mem_append.mpr (Or.inl h3))
      · rcases ih h with h3 | h3
        · exact Or.inl h3
        · exact Or.inr (by rw [registryLabels_cons]; exact List.mem_append.mpr (Or.inr h3))
    · rw [if_neg h2] at h
      rw [registryLabels_cons] at h
      rcases List.mem_append.mp h with h | h
      · exact Or.inr (by rw [registryLabels_cons]; exact List.mem_append.mpr (Or.inl h))
      · rcases ih h with h3 | h3
        · exact Or.inl h3
        · exact Or.inr (by rw [registryLabels_cons]; exact List.mem_append.mpr (Or.inr h3))

theorem mem_labels_dinsert_empty {x key : String} {nm hp : String} {st : Registry}
    (h : x ∈ registryLabels (dinsert key ⟨nm, hp, []⟩ st)) :
    x ∈ registryLabels st := by
  induction st with
  | nil => simp [dinsert, registryLabels, keysOf] at h
  | cons p rest ih =>
    obtain ⟨pk, pm⟩ := p
    by_cases h2 : pk = key
    · subst h2
      simp only [dinsert, eq_self_iff_true, if_true] at h
      rw [registryLabels_cons] at h
      rcases List.mem_append.mp h with h | h
      · simp [keysOf] at h
      · exact (by rw [registryLabels_cons]; exact List.mem_append.mpr (Or.inr h))
    · simp only [dinsert, if_neg h2] at h
      rw [registryLabels_cons] at h
      rcases List.mem_append.mp h with h | h
      · exact (by rw [registryLabels_cons]; exact List.mem_append.mpr (Or.inl h))
      · exact (by rw [registryLabels_cons]; exact List.mem_append.mpr (Or.inr (ih h)))

theorem mem_labels_observeSat {x label : String} {st : Registry} {key : String}
    {v : Int × Int} (h : x ∈ registryLabels (observeSat label st key v)) :
    x = label ∨ x ∈ registryLabels st := by
  rcases hl : alookup key st with _ | m
  · simp only [observeSat, hl] at h
    rcases mem_labels_setGaugeVal h with h2 | h2
    · exact Or.inl h2
    · exact Or.inr (mem_labels_dinsert_empty h2)
  · simp only [observeSat, hl] at h
    exact mem_labels_setGaugeVal h

theorem mem_labels_observeJ {x label : String} {st : Registry} {key : String}
    {v : JVal} (h : x ∈ registryLabels (observeJ label st key v).1) :
    x = label ∨ x ∈ registryLabels st := by
  rcases hl : alookup key st with _ | m
  · rcases hx : canPyHex v with _ | n
    · simp only [observeJ, hl, hx] at h
      exact Or.inr h
    · by_cases hf : canPyFloat v = true
      · simp only [observeJ, hl, hx, if_pos hf] at h
        rcases mem_labels_setGaugeVal h with h2 | h2
        · exact Or.inl h2
        · exact Or.inr (mem_labels_dinsert_empty h2)
      · simp only [observeJ, hl, hx, if_neg hf] at h
        exact Or.inr (mem_labels_dinsert_empty h)
  · by_cases hf : canPyFloat v = true
    · simp only [observeJ, hl, if_pos hf] at h
      exact mem_labels_setGaugeVal h
    · simp only [observeJ, hl, if_neg hf] at h
      exact Or.inr h

theorem mem_labels_satUpdate {x label : String} :
    ∀ (attrs : List (String × (Int × Int))) (st : Registry),
      x ∈ registryLabels (satUpdate label st attrs) →
        x = label ∨ x ∈ registryLabels st
  | [], _, h => Or.inr h
  | (k, v) :: rest, st, h => by
    rcases mem_labels_satUpdate rest (observeSat label st k v) h with h2 | h2
    · exact Or.inl h2
    · exact mem_labels_observeSat h2

theorem mem_labels_jUpdate {x label : String} :
    ∀ (attrs : List (String × JVal)) (st : Registry),
      x ∈ registryLabels (jUpdate label st attrs) →
        x = label ∨ x ∈ registryLabels st
  | [], _, h => Or.inr h
  | (k, v) :: rest, st, h => by
    rw [show jUpdate label st ((k, v) :: rest) =
        (match observeJ label st k v with
          | (st', true) => jUpdate label st' rest
          | (st', false) => st') from rfl] at h
    rcases ho : observeJ label st k v with ⟨st', b⟩
    rw [ho] at h
    have hso : x ∈ registryLabels st' → x = label ∨ x ∈ registryLabels st := by
      intro hx
      have := @mem_labels_observeJ x label st k v
      rw [ho] at this
      exact this hx
    cases b
    · exact hso h
    · rcases mem_labels_jUpdate rest st' h with h2 | h2
      · exact Or.inl h2
      · exact hso h2

theorem mem_labels_processDevice {x : String} {env : Env} {st : Registry}
    {drive typ : JVal} (h : x ∈ registryLabels (processDevice env st drive typ)) :
    (∃ d, drive = JVal.jstr d ∧ x = pyStripDev d) ∨ x ∈ registryLabels st := by
  unfold processDevice at h
  by_cases h1 : typ = JVal.jstr "sat"
  · rw [if_pos h1] at h
    cases drive with
    | jstr d =>
      revert h
      show x ∈ registryLabels
          (match (env.sat d).bind smart_sat_process with
            | some attrs => satUpdate (pyStripDev d) st attrs
            | none => st) → _
      rcases hx : (env.sat d).bind smart_sat_process with _ | attrs <;> intro h
      · exact Or.inr h
      · rcases mem_labels_satUpdate attrs st h with h2 | h2
        · exact Or.inl ⟨d, rfl, h2⟩
        · exact Or.inr h2
    | jnull => exact Or.inr h
    | jbool b => exact Or.inr h
    | jint n => exact Or.inr h
    | jfloat => exact Or.inr h
    | jarr xs => exact Or.inr h
    | jobj fs => exact Or.inr h
  · rw [if_neg h1] at h
    by_cases h2 : typ = JVal.jstr "nvme"
    · rw [if_pos h2] at h
      cases drive with
      | jstr d =>
        revert h
        show x ∈ registryLabels
            (match (env.nvme d).bind smart_nvme_process with
              | some attrs => jUpdate (pyStripDev d) st attrs
              | none => st) → _
        rcases hx : (env.nvme d).bind smart_nvme_process with _ | attrs <;> intro h
        · exact Or.inr h
        · rcases mem_labels_jUpdate attrs st h with h3 | h3
          · exact Or.inl ⟨d, rfl, h3⟩
          · exact Or.inr h3
      | jnull => exact Or.inr h
      | jbool b => exact Or.inr h
      | jint n => exact Or.inr h
      | jfloat => exact Or.inr h
      | jarr xs => exact Or.inr h
      | jobj fs => exact Or.inr h
    · rw [if_neg h2] at h
      by_cases h3 : typ = JVal.jstr "scsi"
      · rw [if_pos h3] at h
        cases drive with
        | jstr d =>
          revert h
          show x ∈ registryLabels
              (match (env.scsi d).bind smart_scsi_process with
                | some attrs => jUpdate (pyStripDev d) st attrs
                | none => st) → _
          rcases hx : (env.scsi d).bind smart_scsi_process with _ | attrs <;> intro h
          · exact Or.inr h
          · rcases mem_labels_jUpdate attrs st h with h4 | h4
            · exact Or.inl ⟨d, rfl, h4⟩
            · exact Or.inr h4
        | jnull => exact Or.inr h
        | jbool b => exact Or.inr h
        | jint n => exact Or.inr h
        | jfloat => exact Or.inr h
        | jarr xs => exact Or.inr h
        | jobj fs => exact Or.inr h
      · rw [if_neg h3] at h
        exact Or.inr h

theorem mem_labels_collectSweep {x : String} {env : Env}
    {drives : List (JVal × JVal)} :
    ∀ {st : Registry}, x ∈ registryLabels (collectSweep env st drives) →
      (∃ d t, (JVal.jstr d, t) ∈ drives ∧ x = pyStripDev d) ∨
        x ∈ registryLabels st := by
  induction drives with
  | nil => exact fun h => Or.inr h
  | cons p rest ih =>
    intro st h
    rcases ih h with h2 | h2
    · obtain ⟨d, t, hmem, hx⟩ := h2
      exact Or.inl ⟨d, t, List.mem_cons_of_mem _ hmem, hx⟩
    · rcases mem_labels_processDevice h2 with h3 | h3
      · obtain ⟨d, hd, hx⟩ := h3
        exact Or.inl ⟨d, p.2, by rw [← hd]; exact ⟨List.mem_cons_self _ _, hx⟩⟩
      · exact Or.inr h3

theorem mem_labels_multiSweep {x : String} {drives : List (JVal × JVal)} :
    ∀ (envs : List Env) {st : Registry},
      x ∈ registryLabels (multiSweep drives envs st) →
        (∃ d t, (JVal.jstr d, t) ∈ drives ∧ x = pyStripDev d) ∨
          x ∈ registryLabels st
  | [], _, h => Or.inr h
  | env :: rest, st, h => by
    rcases mem_labels_multiSweep rest h with h2 | h2
    · exact Or.inl h2
    · exact mem_labels_collectSweep h2

theorem processDevice_failed {env : Env} {drive typ : JVal}
    (h : extractionFailed env drive typ = true) (st : Registry) :
    processDevice env st drive typ = st := by
  unfold extractionFailed at h
  unfold processDevice
  by_cases h1 : typ = JVal.jstr "sat"
  · rw [if_pos h1] at h ⊢
    cases drive with
    | jstr d =>
      revert h
      show ((env.sat d).bind smart_sat_process).isNone = true → _
      intro h
      rw [Option.isNone_iff_eq_none] at h
      show (match (env.sat d).bind smart_sat_process with
        | some attrs => satUpdate (pyStripDev d) st attrs
        | none => st) = st
      rw [h]
    | jnull => rfl
    | jbool b => rfl
    | jint n => rfl
    | jfloat => rfl
    | jarr xs => rfl
    | jobj fs => rfl
  · rw [if_neg h1] at h ⊢
    by_cases h2 : typ = JVal.jstr "nvme"
    · rw [if_pos h2] at h ⊢
      cases drive with
      | jstr d =>
        revert h
        show ((env.nvme d).bind smart_nvme_process).isNone = true → _
        intro h
        rw [Option.isNone_iff_eq_none] at h
        show (match (env.nvme d).bind smart_nvme_process with
          | some attrs => jUpdate (pyStripDev d) st attrs
          | none => st) = st
        rw [h]
      | jnull => rfl
      | jbool b => rfl
      | jint n => rfl
      | jfloat => rfl
      | jarr xs => rfl
      | jobj fs => rfl
    · rw [if_neg h2] at h ⊢
      by_cases h3 : typ = JVal.jstr "scsi"
      · rw [if_pos h3] at h ⊢
        cases drive with
        | jstr d =>
          revert h
          show ((env.scsi d).bind smart_scsi_process).isNone = true → _
          intro h
          rw [Option.isNone_iff_eq_none] at h
          show (match (env.scsi d).bind smart_scsi_process with
            | some attrs => jUpdate (pyStripDev d) st attrs
            | none => st) = st
          rw [h]
        | jnull => rfl
        | jbool b => rfl
        | jint n => rfl
        | jfloat => rfl
        | jarr xs => rfl
        | jobj fs => rfl
      · rw [if_neg h3] at h ⊢

theorem alookup_mem {K V : Type} [DecidableEq K] {k : K} {v : V}
    {l : List (K × V)} (h : alookup k l = some v) : (k, v) ∈ l := by
  induction l with
  | nil => cases h
  | cons p rest ih =>
    obtain ⟨pk, pv⟩ := p
    by_cases hp : pk = k
    · subst hp
      simp only [alookup, eq_self_iff_true, if_true, Option.some.injEq] at h
      subst h
      exact List.mem_cons_self _ _
    · simp only [alookup, if_neg hp] at h
      exact List.mem_cons_of_mem _ (ih h)

theorem mem_keys_flatten {α : Type} {x : String} {L : List (List (String × α))}
    (h : x ∈ keysOf L.flatten) : ∃ l ∈ L, x ∈ keysOf l := by
  simp only [keysOf, List.mem_map] at h
  obtain ⟨q, hq, rfl⟩ := h
  obtain ⟨l, hl, hql⟩ := List.mem_flatten.mp hq
  exact ⟨l, hl, List.mem_map_of_mem _ hql⟩

theorem digitChar_isDigit : ∀ m : Nat, m < 10 → (Nat.digitChar m).isDigit = true := by
  decide

theorem toDigitsCore_digits (fuel : Nat) :
    ∀ (n : Nat) (ds : List Char), ∀ c ∈ Nat.toDigitsCore 10 fuel n ds,
      c.isDigit = true ∨ c ∈ ds := by
  induction fuel with
  | zero => exact fun n ds c hc => Or.inr hc
  | succ f ih =>
    intro n ds c hc
    simp only [Nat.toDigitsCore] at hc
    by_cases h : n / 10 = 0
    · rw [if_pos h] at hc
      rcases List.mem_cons.mp hc with h2 | h2
      · exact Or.inl (h2 ▸ digitChar_isDigit (n % 10) (Nat.mod_lt n (by norm_num)))
      · exact Or.inr h2
    · rw [if_neg h] at hc
      rcases ih (n / 10) (Nat.digitChar (n % 10) :: ds) c hc with h2 | h2
      · exact Or.inl h2
      · rcases List.mem_cons.mp h2 with h3 | h3
        · exact Or.inl (h3 ▸ digitChar_isDigit (n % 10) (Nat.mod_lt n (by norm_num)))
        · exact Or.inr h3

theorem natToString_digits (n : Nat) : ∀ c ∈ (toString n).toList, c.isDigit = true := by
  intro c hc
  have hc2 : c ∈ Nat.toDigits 10 n := hc
  rcases toDigitsCore_digits (n + 1) n [] c hc2 with h | h
  · exact h
  · cases h

theorem sensor_key_ne (i : Nat) :
    "temperature_sensor" ++ toString i ≠ "temperature_sensors" := by
  intro h
  have hl : ("temperature_sensor" ++ toString i).toList =
      "temperature_sensors".toList := congrArg String.toList h
  have happ : ("temperature_sensor" ++ toString i).toList =
      "temperature_sensor".toList ++ (toString i).toList := by
    show ("temperature_sensor" ++ toString i).data = _
    exact String.data_append _ _
  have hs : "temperature_sensors".toList = "temperature_sensor".toList ++ ['s'] := by
    decide
  rw [happ, hs] at hl
  have hone : (toString i).toList = ['s'] := List.append_cancel_left hl
  have := natToString_digits i 's' (by rw [hone]; simp)
  cases this

theorem mem_keys_nvmeFieldObs {x k : String} {v : JVal}
    (h : x ∈ keysOf ((nvmeFieldObs k v).getD [])) :
    (k = "temperature_sensors" ∧ ∃ i : Nat, x = "temperature_sensor" ++ toString i) ∨
    (k ≠ "temperature_sensors" ∧ x = k) := by
  by_cases hk : k = "temperature_sensors"
  · left
    refine ⟨hk, ?_⟩
    simp only [nvmeFieldObs, if_pos hk] at h
    rcases hi : iterElems v with _ | es
    · rw [hi] at h
      cases h
    · rw [hi] at h
      simp only [Option.map_some', Option.getD_some] at h
      obtain ⟨q, hq, hxq⟩ := List.mem_map.mp h
      simp only [sensorObs] at hq
      obtain ⟨p, hp, rfl⟩ := List.mem_map.mp hq
      exact ⟨p.1, hxq.symm⟩
  · right
    refine ⟨hk, ?_⟩
    simp only [nvmeFieldObs, if_neg hk, Option.getD_some, keysOf, List.map_cons,
      List.map_nil, List.mem_singleton] at h
    exact h

theorem nvme_no_sensors_key (fields : List (String × JVal)) :
    alookup "temperature_sensors" (nvmeObsJoin fields) = none := by
  apply alookup_eq_none
  intro hmem
  obtain ⟨l, hl, hx⟩ := mem_keys_flatten (by simpa [nvmeObsJoin] using hmem)
  obtain ⟨p, _, rfl⟩ := List.mem_map.mp hl
  rcases mem_keys_nvmeFieldObs hx with ⟨_, i, hi⟩ | ⟨hne, hx2⟩
  · exact sensor_key_ne i hi.symm
  · exact hne hx2.symm

theorem scsiFieldObs_val_int {p : String × JVal} {k : String} {v : JVal}
    (hp : p ∈ scsiFieldObs k v) : ∃ m : Int, p.2 = JVal.jint m := by
  unfold scsiFieldObs at hp
  cases v with
  | jobj inner =>
    obtain ⟨q, hql, hfq⟩ := List.mem_filterMap.mp hp
    split at hfq
    · injection hfq with hfq2
      exact ⟨_, by rw [← hfq2]⟩
    · cases hfq
  | jint n =>
    rcases List.mem_singleton.mp hp with rfl
    exact ⟨n, rfl⟩
  | jnull => cases hp
  | jbool b => cases hp
  | jfloat => cases hp
  | jstr s => cases hp
  | jarr xs => cases hp

theorem get_drives_eq {top : List (String × JVal)} {devs : List JVal}
    (hdevs : alookup "devices" top = some (JVal.jarr devs)) :
    get_drives (JVal.jobj top) = getDrivesAux [] devs := by
  simp only [get_drives, hdevs]

theorem getDrivesAux_mem {devs : List JVal} :
    ∀ {acc disks : List (JVal × JVal)}, getDrivesAux acc devs = some disks →
      ∀ {q : JVal × JVal}, q ∈ disks →
        q ∈ acc ∨ ∃ fs, JVal.jobj fs ∈ devs ∧ alookup "open_error" fs = none ∧
          alookup "name" fs = some q.1 := by
  induction devs with
  | nil =>
    intro acc disks h q hq
    injection h with h
    subst h
    exact Or.inl hq
  | cons e rest ih =>
    intro acc disks h q hq
    cases e with
    | jobj fs =>
      by_cases he : (alookup "open_error" fs).isSome = true
      · by_cases hk : (alookup "name" fs).isSome = true ∧
            (alookup "type" fs).isSome = true ∧ (alookup "protocol" fs).isSome = true
        · rw [show getDrivesAux acc (JVal.jobj fs :: rest) = getDrivesAux acc rest by
            simp only [getDrivesAux, if_pos he, if_pos hk]] at h
          rcases ih h hq with h2 | ⟨fs', hmem, hoe, hnm⟩
          · exact Or.inl h2
          · exact Or.inr ⟨fs', List.mem_cons_of_mem _ hmem, hoe, hnm⟩
        · rw [show getDrivesAux acc (JVal.jobj fs :: rest) = none by
            simp only [getDrivesAux, if_pos he, if_neg hk]] at h
          cases h
      · rcases hn : alookup "name" fs with _ | n
        · rw [show getDrivesAux acc (JVal.jobj fs :: rest) = none by
            simp only [getDrivesAux, if_neg he, hn]] at h
          cases h
        · rcases ht : alookup "type" fs with _ | t
          · rw [show getDrivesAux acc (JVal.jobj fs :: rest) = none by
              simp only [getDrivesAux, if_neg he, hn, ht]] at h
            cases h
          · rw [show getDrivesAux acc (JVal.jobj fs :: rest) =
                getDrivesAux (dinsert n t acc) rest by
              simp only [getDrivesAux, if_neg he, hn, ht]] at h
            rcases ih h hq with h2 | ⟨fs', hmem, hoe, hnm⟩
            · rcases mem_dinsert h2 with h3 | h3
              · subst h3
                exact Or.inr ⟨fs, List.mem_cons_self _ _,
                  Option.not_isSome_iff_eq_none.mp (by simpa using he), hn⟩
              · exact Or.inl h3
            · exact Or.inr ⟨fs', List.mem_cons_of_mem _ hmem, hoe, hnm⟩
    | jnull => cases h
    | jbool b => cases h
    | jint n => cases h
    | jfloat => cases h
    | jstr s => cases h
    | jarr xs => cases h

/-- The tool behaviour of the C4 witness: the first device's invocation
exits non-zero, the second returns a one-row attribute table. -/
def envC4 : Env :=
  ⟨fun dev => if dev = "/dev/sda" then none else some (HEADER ++ "\n1 Temp 0x0 42"),
   fun _ => none, fun _ => none⟩

/-- The tool behaviour of the C9 witness. -/
def envC9 : Env :=
  ⟨fun _ => some (HEADER ++ "\n1 Temp 0x0 42"), fun _ => none, fun _ => none⟩

/-- Twin-freedom side condition of the amended C9: a scan entry either has an
open error, or its (string) name strips to a different label than the
excluded name. -/
def nonErrTwinFree (e : JVal) (nm : String) : Bool :=
  match e with
  | .jobj fs =>
    if (alookup "open_error" fs).isSome then true
    else
      match alookup "name" fs with
      | some (.jstr n) => pyStripDev n != pyStripDev nm
      | _ => true
  | _ => true

/-! ### Claim theorems -/

/-- C1, counterexample: the claim fails as universally stated.  On a table
whose two rows share attribute name `Foo` (token 1), the second row's dict
write overwrites the first, so the row `1 Foo 0x0 10` — which splits into
more than 3 tokens and whose ID and value columns parse — does **not**
contribute an observation `Foo ↦ (1, 10)` to the result; the extractor
returns only `Foo ↦ (2, 20)`. -/
theorem claim_C1_cex :
    smart_sat_process (HEADER ++ "\n1 Foo 0x0 10\n2 Foo 0x0 20") =
      some [("Foo", (2, 20))] ∧
    satRowObs "1 Foo 0x0 10" = some [("Foo", (1, 10))] ∧
    alookup "Foo" [("Foo", ((2 : Int), (20 : Int)))] ≠ some ((1 : Int), (10 : Int)) :=
  ⟨rfl, rfl, by decide⟩

/-- C1, amended: for an ATA table input whose line list is the exact header
followed by non-empty non-header rows, where every row of more than 3 tokens
has parsable ID and value columns and **the keys produced by distinct rows do
not collide**, `smart_sat` returns exactly the per-row observations, in row
order: for each row of more than 3 tokens one observation
`token 1 ↦ (int(token 0), int(token 3))` plus `token 1 ++ "_raw"` exactly
when token 9 exists and parses (that is what `satRowObs` states), and rows of
at most 3 tokens contribute nothing; each produced key looks up to exactly
its row's observation. -/
theorem claim_C1 (results : String) (pre rows : List String)
    (hsplit : pyLines results = pre ++ HEADER :: rows)
    (hpre : HEADER ∉ pre)
    (hrows : ∀ r ∈ rows, r ≠ "" ∧ r ≠ HEADER ∧ (satRowObs r).isSome)
    (hnd : (keysOf (satObsJoin rows)).Nodup) :
    smart_sat_process results = some (satObsJoin rows) ∧
    ∀ r ∈ rows, ∀ p ∈ (satRowObs r).getD [],
      alookup p.1 (satObsJoin rows) = some p.2 := by
  constructor
  · show satAux false [] (pyLines results) = _
    rw [hsplit, satAux_through_header hpre, satAux_rows hrows,
      show dinsertAll [] (satObsJoin rows) = [] ++ satObsJoin rows from
        dinsertAll_append (by simpa [keysOf] using hnd)]
    simp
  · intro r hr p hp
    have hmem : (p.1, p.2) ∈ satObsJoin rows := by
      have hj : p ∈ satObsJoin rows :=
        List.mem_flatten.mpr ⟨(satRowObs r).getD [], List.mem_map_of_mem _ hr, hp⟩
      simpa using hj
    exact alookup_of_mem_nodup hnd hmem

/-- C1, witness: a concrete table with one full row (raw value parses, so the
`_raw` observation appears) and one short row (2 tokens, no observation). -/
theorem claim_C1_witness :
    smart_sat_process
        (HEADER ++ "\n9 Power_On_Hours 0x0032 100 100 000 Old_age Always - 12345\nshort row") =
      some [("Power_On_Hours", (9, 100)), ("Power_On_Hours_raw", (9, 12345))] ∧
    alookup "Power_On_Hours_raw"
        [("Power_On_Hours", ((9 : Int), (100 : Int))), ("Power_On_Hours_raw", (9, 12345))] =
      some (9, 12345) := by
  have h := claim_C1
    (HEADER ++ "\n9 Power_On_Hours 0x0032 100 100 000 Old_age Always - 12345\nshort row")
    [] ["9 Power_On_Hours 0x0032 100 100 000 Old_age Always - 12345", "short row"]
    (by rfl) (by simp) (by decide) (by decide)
  exact ⟨h.1, h.2 "9 Power_On_Hours 0x0032 100 100 000 Old_age Always - 12345" (by simp)
    ("Power_On_Hours_raw", ((9 : Int), (12345 : Int))) (by decide)⟩

/-- C2, counterexample: the claim fails as universally stated.  When another
health-log field is literally named `temperature_sensor1`, the positional
expansion of `temperature_sensors: [5]` is overwritten by that field's own
dict write, so the output does not contain `temperature_sensor1 = 5`. -/
theorem claim_C2_cex :
    smart_nvme_process (JVal.jobj [("nvme_smart_health_information_log", JVal.jobj
      [("temperature_sensors", JVal.jarr [JVal.jint 5]),
       ("temperature_sensor1", JVal.jint 99)])]) =
      some [("temperature_sensor1", JVal.jint 99)] ∧
    JVal.jint 99 ≠ JVal.jint 5 :=
  ⟨rfl, by decide⟩

/-- C2, amended: for an NVMe document whose health-log object (a dict, so
field names are distinct) has `temperature_sensors` holding a sequence
`xs`, and **no other field is named `temperature_sensor{i}`** (expressed as:
the expanded key list has no duplicates), the extractor output is exactly the
field list with `temperature_sensors` replaced in place by
`temperature_sensor{i} ↦ xs[i-1]` for i = 1..N: the output has no
`temperature_sensors` key, each `temperature_sensor{i}` looks up to the i-th
element (1-indexed, positional), and every other field looks up to its own
value under its own name. -/
theorem claim_C2 (doc : JVal) (top fields : List (String × JVal)) (xs : List JVal)
    (hdoc : doc = JVal.jobj top)
    (hlog : alookup "nvme_smart_health_information_log" top = some (JVal.jobj fields))
    (hfnd : (keysOf fields).Nodup)
    (hsens : alookup "temperature_sensors" fields = some (JVal.jarr xs))
    (hnd : (keysOf (nvmeObsJoin fields)).Nodup) :
    smart_nvme_process doc = some (nvmeObsJoin fields) ∧
    alookup "temperature_sensors" (nvmeObsJoin fields) = none ∧
    (∀ p ∈ List.enumFrom 1 xs,
      alookup ("temperature_sensor" ++ toString p.1) (nvmeObsJoin fields) = some p.2) ∧
    (∀ p ∈ fields, p.1 ≠ "temperature_sensors" →
      alookup p.1 (nvmeObsJoin fields) = some p.2) := by
  have hall : ∀ p ∈ fields, (nvmeFieldObs p.1 p.2).isSome := by
    intro p hp
    by_cases hk : p.1 = "temperature_sensors"
    · have h1 : alookup p.1 fields = some p.2 :=
        alookup_of_mem_nodup hfnd (by simpa using hp)
      rw [hk, hsens] at h1
      injection h1 with h1
      simp [nvmeFieldObs, hk, ← h1, iterElems]
    · simp [nvmeFieldObs, hk]
  refine ⟨?_, nvme_no_sensors_key fields, ?_, ?_⟩
  · subst hdoc
    simp only [smart_nvme_process, hlog]
    rw [nvmeAux_fields hall,
      show dinsertAll [] (nvmeObsJoin fields) = [] ++ nvmeObsJoin fields from
        dinsertAll_append (by simpa [keysOf] using hnd)]
    simp
  · intro p hp
    have hsf : ("temperature_sensors", JVal.jarr xs) ∈ fields := alookup_mem hsens
    have hmem : ("temperature_sensor" ++ toString p.1, p.2) ∈ nvmeObsJoin fields := by
      apply List.mem_flatten.mpr
      refine ⟨(nvmeFieldObs "temperature_sensors" (JVal.jarr xs)).getD [],
        List.mem_map_of_mem _ hsf, ?_⟩
      simp only [nvmeFieldObs, if_pos rfl, iterElems, Option.map_some',
        Option.getD_some, sensorObs]
      exact List.mem_map_of_mem _ hp
    exact alookup_of_mem_nodup hnd hmem
  · intro p hp hne
    have hmem : (p.1, p.2) ∈ nvmeObsJoin fields := by
      apply List.mem_flatten.mpr
      refine ⟨(nvmeFieldObs p.1 p.2).getD [], List.mem_map_of_mem _ hp, ?_⟩
      simp [nvmeFieldObs, hne]
    exact alookup_of_mem_nodup hnd hmem

/-- C2, witness: the specification's own NVMe scenario,
`temperature: 305, temperature_sensors: [305, 310]`. -/
theorem claim_C2_witness :
    smart_nvme_process (JVal.jobj [("nvme_smart_health_information_log", JVal.jobj
      [("temperature", JVal.jint 305),
       ("temperature_sensors", JVal.jarr [JVal.jint 305, JVal.jint 310])])]) =
      some [("temperature", JVal.jint 305),
            ("temperature_sensor1", JVal.jint 305),
            ("temperature_sensor2", JVal.jint 310)] := by
  have h := claim_C2 _
    [("nvme_smart_health_information_log", JVal.jobj
      [("temperature", JVal.jint 305),
       ("temperature_sensors", JVal.jarr [JVal.jint 305, JVal.jint 310])])]
    [("temperature", JVal.jint 305),
     ("temperature_sensors", JVal.jarr [JVal.jint 305, JVal.jint 310])]
    [JVal.jint 305, JVal.jint 310]
    rfl (by rfl) (by decide) (by rfl) (by decide)
  exact h.1

/-- C3, counterexample: the claim fails as universally stated.  When a
nested integer's derived key `a_b` collides with a top-level integer field
literally named `a_b`, the later dict write wins, so the top-level integer
`a_b = 1` is **not** included in the output. -/
theorem claim_C3_cex :
    smart_scsi_process (JVal.jobj
      [("a_b", JVal.jint 1), ("a", JVal.jobj [("b", JVal.jint 2)])]) =
      some [("a_b", JVal.jint 2)] ∧
    JVal.jint 2 ≠ JVal.jint 1 :=
  ⟨rfl, by decide⟩

/-- C3, amended: for a SCSI JSON object whose produced keys (top-level
integer names and `"{outer}_{inner}"` for one-level-nested integers) do not
collide, the extractor output is exactly those observations in field order
(`scsiFieldObs` drops strings, floats, arrays, booleans, null and anything
nested deeper than one level, and keeps exactly the integers); every
produced entry looks up to its value, and every output value is an
integer. -/
theorem claim_C3 (fields : List (String × JVal))
    (hnd : (keysOf (scsiObsJoin fields)).Nodup) :
    smart_scsi_process (JVal.jobj fields) = some (scsiObsJoin fields) ∧
    (∀ p ∈ scsiObsJoin fields, alookup p.1 (scsiObsJoin fields) = some p.2) ∧
    (∀ p ∈ scsiObsJoin fields, ∃ m : Int, p.2 = JVal.jint m) := by
  refine ⟨?_, ?_, ?_⟩
  · show some (scsiAux [] fields) = _
    rw [scsiAux_fields,
      show dinsertAll [] (scsiObsJoin fields) = [] ++ scsiObsJoin fields from
        dinsertAll_append (by simpa [keysOf] using hnd)]
    simp
  · intro p hp
    exact alookup_of_mem_nodup hnd (by simpa using hp)
  · intro p hp
    obtain ⟨l, hl, hpl⟩ := List.mem_flatten.mp hp
    obtain ⟨q, hq, rfl⟩ := List.mem_map.mp hl
    exact scsiFieldObs_val_int hpl

/-- C3, witness: a document with two one-level-nested integers, a top-level
string (dropped), a float (dropped) and an array (dropped). -/
theorem claim_C3_witness :
    smart_scsi_process (JVal.jobj
      [("power_on_time", JVal.jobj [("hours", JVal.jint 100)]),
       ("temperature", JVal.jobj [("current", JVal.jint 30), ("drive_trip", JVal.jstr "x")]),
       ("model_name", JVal.jstr "disk"),
       ("ratio", JVal.jfloat),
       ("list_field", JVal.jarr [JVal.jint 1]),
       ("scsi_grown_defect_list", JVal.jint 0)]) =
      some [("power_on_time_hours", JVal.jint 100),
            ("temperature_current", JVal.jint 30),
            ("scsi_grown_defect_list", JVal.jint 0)] := by
  have h := claim_C3
    [("power_on_time", JVal.jobj [("hours", JVal.jint 100)]),
     ("temperature", JVal.jobj [("current", JVal.jint 30), ("drive_trip", JVal.jstr "x")]),
     ("model_name", JVal.jstr "disk"),
     ("ratio", JVal.jfloat),
     ("list_field", JVal.jarr [JVal.jint 1]),
     ("scsi_grown_defect_list", JVal.jint 0)]
    (by decide)
  exact h.1

/-- C4: an extraction failure of one device (non-zero tool exit, malformed
output, or a non-string device path) is caught at the per-device boundary of
`collect` and leaves the registry untouched, so a sweep over any device list
containing the failing device produces exactly the state of the same sweep
without it — every other device, before or after the failing one, is
attempted and its attributes reported identically, and the sweep (a total
function here) always runs to completion. -/
theorem claim_C4 (env : Env) (st : Registry) (pre post : List (JVal × JVal))
    (d t : JVal) (hfail : extractionFailed env d t = true) :
    collectSweep env st (pre ++ (d, t) :: post) = collectSweep env st (pre ++ post) := by
  unfold collectSweep
  simp only [List.foldl_append, List.foldl_cons]
  rw [processDevice_failed hfail]

/-- C4, witness: with `/dev/sda` failing and `/dev/sdb` healthy in the same
sweep, the sweep equals the sweep without `/dev/sda`, and `sdb`'s attributes
are reported (its label is present in the registry). -/
theorem claim_C4_witness :
    collectSweep envC4 []
        [(JVal.jstr "/dev/sda", JVal.jstr "sat"), (JVal.jstr "/dev/sdb", JVal.jstr "sat")] =
      collectSweep envC4 [] [(JVal.jstr "/dev/sdb", JVal.jstr "sat")] ∧
    extractionFailed envC4 (JVal.jstr "/dev/sda") (JVal.jstr "sat") = true ∧
    registryLabels (collectSweep envC4 []
      [(JVal.jstr "/dev/sda", JVal.jstr "sat"), (JVal.jstr "/dev/sdb", JVal.jstr "sat")]) =
      ["sdb"] :=
  ⟨claim_C4 envC4 [] [] [(JVal.jstr "/dev/sdb", JVal.jstr "sat")]
      (JVal.jstr "/dev/sda") (JVal.jstr "sat") (by rfl),
   by rfl, by rfl⟩

/-- C5, counterexample: the claim fails on the code.  On an ATA input whose
expected header line is missing, `smart_sat` does **not** fail with any
error: it succeeds and returns an empty attribute mapping (`some []`, not
`none`), silently skipping every row. -/
theorem claim_C5_cex :
    smart_sat_process "smartctl 7.2 preamble\n1 Foo 0x0 10" = some [] := rfl

/-- C5, amended: for every ATA input in which the exact expected header line
is missing, `smart_sat` succeeds with an empty attribute mapping — no
exception is raised and no observation is produced; the device simply
reports nothing for that sweep (the caller's error path is never taken). -/
theorem claim_C5 (results : String) (h : HEADER ∉ pyLines results) :
    smart_sat_process results = some [] :=
  satAux_no_header h []

/-- C5, witness: a concrete input with a preamble and a data row but no
header line. -/
theorem claim_C5_witness :
    smart_sat_process "smartctl 7.2\nID# ATTRIBUTE_NAME\n1 Foo 0x0 10" = some [] :=
  claim_C5 "smartctl 7.2\nID# ATTRIBUTE_NAME\n1 Foo 0x0 10" (by decide)

/-- C6, counterexample: the claim fails for ATA metrics.  For the first
observation `("Power_On_Hours", (9, 100))` — attribute ID 9, observed value
100 — the created help text embeds `hex(values[0]) = 0x9`, the **attribute
ID**, not the hexadecimal of the observed value 100 (`0x64`). -/
theorem claim_C6_cex :
    observeSat "sda" [] "Power_On_Hours" (9, 100) =
      [("Power_On_Hours",
        ⟨"smartprom_power_on_hours", "(0x9) Power On Hours", [("sda", JVal.jint 100)]⟩)] ∧
    pyHex 100 = "0x64" ∧
    "(0x9) Power On Hours" ≠ "(0x64) Power On Hours" :=
  ⟨rfl, rfl, by decide⟩

/-- C6, amended: the help text of a metric created on first sight of a key is
the key with underscores replaced by spaces, preceded by a parenthesized
hexadecimal rendering of a representative number of the first observation —
for ATA metrics the attribute ID (`values[0]`), for NVMe/SCSI metrics the
observed value itself — and the name and help text are fixed at creation:
any later processing of any device (same or different values) preserves
them, only the per-label values change. -/
theorem claim_C6 :
    (∀ (st : Registry) (label key : String) (v : Int × Int),
      alookup key st = none →
        alookup key (observeSat label st key v) =
          some ⟨smartName key, "(" ++ pyHex v.1 ++ ") " ++ descOf key,
            [(label, JVal.jint v.2)]⟩) ∧
    (∀ (st : Registry) (label key : String) (v : JVal) (n : Int),
      alookup key st = none → canPyHex v = some n → canPyFloat v = true →
        alookup key (observeJ label st key v).1 =
          some ⟨smartName key, "(" ++ pyHex n ++ ") " ++ descOf key, [(label, v)]⟩) ∧
    (∀ (env : Env) (drives : List (JVal × JVal)) (st : Registry) (key : String)
        (m : Metric),
      alookup key st = some m →
        ∃ vs, alookup key (collectSweep env st drives) = some ⟨m.name, m.help, vs⟩) := by
  refine ⟨?_, ?_, ?_⟩
  · intro st label key v h
    simp only [observeSat, h]
    rw [alookup_setGaugeVal, alookup_dinsert_self]
    simp [helpOf, dinsert]
  · intro st label key v n h hx hf
    simp only [observeJ, h, hx, if_pos hf]
    rw [alookup_setGaugeVal, alookup_dinsert_self]
    simp [helpOf, dinsert]
  · intro env drives st key m h
    exact metaAgree_collectSweep env drives st key m h

/-- C6, witness: creation formulas at concrete first observations, and
preservation of a pre-existing metric's name and help across a sweep. -/
theorem claim_C6_witness :
    alookup "Temperature" (observeSat "sda" [] "Temperature" (194, 38)) =
      some ⟨smartName "Temperature", "(" ++ pyHex 194 ++ ") " ++ descOf "Temperature",
        [("sda", JVal.jint 38)]⟩ ∧
    alookup "temperature" (observeJ "nvme0" [] "temperature" (JVal.jint 305)).1 =
      some ⟨smartName "temperature", "(" ++ pyHex 305 ++ ") " ++ descOf "temperature",
        [("nvme0", JVal.jint 305)]⟩ ∧
    ∃ vs, alookup "Temperature"
        (collectSweep envC4 [("Temperature", ⟨"keepname", "keephelp", []⟩)]
          [(JVal.jstr "/dev/sdb", JVal.jstr "sat")]) =
      some ⟨"keepname", "keephelp", vs⟩ :=
  ⟨claim_C6.1 [] "sda" "Temperature" (194, 38) rfl,
   claim_C6.2.1 [] "nvme0" "temperature" (JVal.jint 305) 305 rfl rfl rfl,
   claim_C6.2.2 envC4 [(JVal.jstr "/dev/sdb", JVal.jstr "sat")]
     [("Temperature", ⟨"keepname", "keephelp", []⟩)] "Temperature"
     ⟨"keepname", "keephelp", []⟩ rfl⟩

/-- C7: the metric-name sanitization (lowercase; `-`, space, `/` become `_`;
`.` removed; fixed `smartprom_` namespace) is deterministic — the name
registered on first sight of a key is `"smartprom_" ++ sanitizeKey key`
regardless of the registry state, label or observed value it is created
under — and the key transformation is idempotent: sanitizing an
already-sanitized body leaves it unchanged. -/
theorem claim_C7 :
    (∀ key : String, sanitizeKey (sanitizeKey key) = sanitizeKey key) ∧
    (∀ (st : Registry) (label key : String) (v : Int × Int),
      alookup key st = none →
        ∃ m, alookup key (observeSat label st key v) = some m ∧
          m.name = "smartprom_" ++ sanitizeKey key) ∧
    (∀ (st : Registry) (label key : String) (v : JVal) (n : Int),
      alookup key st = none → canPyHex v = some n →
        ∃ m, alookup key (observeJ label st key v).1 = some m ∧
          m.name = "smartprom_" ++ sanitizeKey key) := by
  refine ⟨sanitizeKey_idem, ?_, ?_⟩
  · intro st label key v h
    refine ⟨⟨smartName key, helpOf key v.1, [(label, JVal.jint v.2)]⟩, ?_, rfl⟩
    simp only [observeSat, h]
    rw [alookup_setGaugeVal, alookup_dinsert_self]
    simp [dinsert]
  · intro st label key v n h hx
    by_cases hf : canPyFloat v = true
    · refine ⟨⟨smartName key, helpOf key n, [(label, v)]⟩, ?_, rfl⟩
      simp only [observeJ, h, hx, if_pos hf]
      rw [alookup_setGaugeVal, alookup_dinsert_self]
      simp [dinsert]
    · refine ⟨⟨smartName key, helpOf key n, []⟩, ?_, rfl⟩
      simp only [observeJ, h, hx, if_neg hf]
      exact alookup_dinsert_self _ _ _

/-- C7, witness: idempotence on a key exercising every replaced character,
and state-independent names at two concrete creations. -/
theorem claim_C7_witness :
    sanitizeKey (sanitizeKey "Media-Wearout. Indicator/X") =
      sanitizeKey "Media-Wearout. Indicator/X" ∧
    (∃ m, alookup "Head Flying-Hours./x"
        (observeSat "sda" [] "Head Flying-Hours./x" (240, 7)) = some m ∧
      m.name = "smartprom_" ++ sanitizeKey "Head Flying-Hours./x") ∧
    (∃ m, alookup "available_spare"
        (observeJ "nvme0" [] "available_spare" (JVal.jint 100)).1 = some m ∧
      m.name = "smartprom_" ++ sanitizeKey "available_spare") :=
  ⟨claim_C7.1 "Media-Wearout. Indicator/X",
   claim_C7.2.1 [] "sda" "Head Flying-Hours./x" (240, 7) rfl,
   claim_C7.2.2 [] "nvme0" "available_spare" (JVal.jint 100) 100 rfl rfl⟩

/-- C8, counterexample: the claim fails on the code.  The guard of `main` is
the strict comparison `elapsed_time > SCAN_EVERY_SECONDS`: at elapsed time
exactly equal to the interval (20 = 20), no sweep fires and the state is
unchanged. -/
theorem claim_C8_cex : loopTick 20 ⟨0, 0⟩ 20 = ⟨0, 0⟩ := by
  unfold loopTick
  norm_num

/-- C8, amended: in the steady-state loop of `main`, the transition from
waiting to a new sweep fires exactly when the elapsed time since the last
scan start **strictly exceeds** the configured interval; at elapsed time
equal to the interval no sweep fires (it fires on a later tick). -/
theorem claim_C8 (interval now : ℚ) (st : LoopState) :
    ((loopTick interval st now).sweepCount = st.sweepCount + 1 ↔
      now - st.startTime > interval) ∧
    ((loopTick interval st now).sweepCount = st.sweepCount ↔
      ¬(now - st.startTime > interval)) := by
  unfold loopTick
  by_cases h : now - st.startTime > interval
  · rw [if_pos h]
    simp [h]
  · rw [if_neg h]
    simp [h]

/-- C9, counterexample: the claim fails as universally stated.  Two scan
entries may share a name, one with an open error and one without; the
errored entry is skipped but its twin is recorded, so the excluded device's
name is passed to an extractor and appears as a label. -/
theorem claim_C9_cex :
    get_drives (JVal.jobj [("devices", JVal.jarr
      [JVal.jobj [("name", JVal.jstr "sda"), ("type", JVal.jstr "sat"),
                  ("protocol", JVal.jstr "ATA"), ("open_error", JVal.jstr "err")],
       JVal.jobj [("name", JVal.jstr "sda"), ("type", JVal.jstr "sat")]])]) =
      some [(JVal.jstr "sda", JVal.jstr "sat")] ∧
    "sda" ∈ registryLabels (collectSweep
      ⟨fun _ => some (HEADER ++ "\n1 Temp 0x0 42"), fun _ => none, fun _ => none⟩
      [] [(JVal.jstr "sda", JVal.jstr "sat")]) :=
  ⟨rfl, by decide⟩

/-- C9, amended: a scan entry carrying an `open_error` field is excluded from
the discovered mapping, and — **provided no open-error-free entry's name
strips to the same label** — its name is never a key of the mapping and its
stripped name never appears as a `drive` label in the registry, across any
number of sweeps with any tool behaviour, for the whole process lifetime. -/
theorem claim_C9 (top : List (String × JVal)) (devs : List JVal)
    (disks : List (JVal × JVal)) (fs : List (String × JVal)) (nm : String)
    (envs : List Env)
    (hdevs : alookup "devices" top = some (JVal.jarr devs))
    (hdisks : get_drives (JVal.jobj top) = some disks)
    (hentry : JVal.jobj fs ∈ devs)
    (herr : (alookup "open_error" fs).isSome = true)
    (hname : alookup "name" fs = some (JVal.jstr nm))
    (hothers : ∀ e ∈ devs, nonErrTwinFree e nm = true) :
    alookup (JVal.jstr nm) disks = none ∧
    pyStripDev nm ∉ registryLabels (multiSweep disks envs []) := by
  have hprov : ∀ q : JVal × JVal, q ∈ disks →
      ∃ fs', JVal.jobj fs' ∈ devs ∧ alookup "open_error" fs' = none ∧
        alookup "name" fs' = some q.1 := by
    intro q hq
    have h0 := getDrivesAux_mem (by rwa [get_drives_eq hdevs] at hdisks) hq
    rcases h0 with h0 | h0
    · cases h0
    · exact h0
  constructor
  · apply alookup_eq_none
    intro hmem
    obtain ⟨q, hq, hq1⟩ := List.mem_map.mp hmem
    obtain ⟨fs', hm, hoe, hnm⟩ := hprov q hq
    rw [hq1] at hnm
    have hott := hothers _ hm
    simp [nonErrTwinFree, hoe, hnm] at hott
  · intro hmem
    rcases mem_labels_multiSweep envs hmem with ⟨d, t, hdt, hx⟩ | h2
    · obtain ⟨fs', hm, hoe, hnm⟩ := hprov _ hdt
      have hott := hothers _ hm
      simp [nonErrTwinFree, hoe, hnm] at hott
      exact hott hx.symm
    · cases h2

/-- C9, witness: a scan with an errored `/dev/sdz` and a healthy `/dev/sda`;
after one sweep, `/dev/sdz` is not in the mapping and `sdz` is not a
label. -/
theorem claim_C9_witness :
    alookup (JVal.jstr "/dev/sdz") [(JVal.jstr "/dev/sda", JVal.jstr "sat")] = none ∧
    pyStripDev "/dev/sdz" ∉ registryLabels
      (multiSweep [(JVal.jstr "/dev/sda", JVal.jstr "sat")] [envC9] []) :=
  claim_C9
    [("devices", JVal.jarr
      [JVal.jobj [("name", JVal.jstr "/dev/sdz"), ("type", JVal.jstr "sat"),
                  ("protocol", JVal.jstr "ATA"), ("open_error", JVal.jstr "e")],
       JVal.jobj [("name", JVal.jstr "/dev/sda"), ("type", JVal.jstr "sat")]])]
    [JVal.jobj [("name", JVal.jstr "/dev/sdz"), ("type", JVal.jstr "sat"),
                ("protocol", JVal.jstr "ATA"), ("open_error", JVal.jstr "e")],
     JVal.jobj [("name", JVal.jstr "/dev/sda"), ("type", JVal.jstr "sat")]]
    [(JVal.jstr "/dev/sda", JVal.jstr "sat")]
    [("name", JVal.jstr "/dev/sdz"), ("type", JVal.jstr "sat"),
     ("protocol", JVal.jstr "ATA"), ("open_error", JVal.jstr "e")]
    "/dev/sdz" [envC9]
    (by rfl) (by rfl) (by decide) (by rfl) (by rfl) (by decide)

/-- C10: on an ATA table whose header is followed by a well-formed row and
then a row of more than 3 tokens whose value column (`tokens[3] = "XY"`)
does not parse as an integer, `smart_sat` raises an uncaught `ValueError`
and yields no attribute mapping at all — the earlier well-formed row's
observations are discarded rather than partially reported.  Only the raw
column (token 9) is parsed tolerantly: the same table with an unparsable
token 9 succeeds, merely omitting the `_raw` observation. -/
theorem claim_C10 :
    smart_sat_process
        (HEADER ++ "\n9 Power_On_Hours 0x0032 100 100 000 Old_age Always - 12345\n1 Bad 0x0 XY") =
      none ∧
    pySplitWs "1 Bad 0x0 XY" = ["1", "Bad", "0x0", "XY"] ∧
    pyInt? "XY" = none ∧
    satRowObs "9 Power_On_Hours 0x0032 100 100 000 Old_age Always - 12345" =
      some [("Power_On_Hours", (9, 100)), ("Power_On_Hours_raw", (9, 12345))] ∧
    smart_sat_process
        (HEADER ++ "\n9 Power_On_Hours 0x0032 100 100 000 Old_age Always - RAW") =
      some [("Power_On_Hours", (9, 100))] :=
  ⟨rfl, rfl, rfl, rfl, rfl⟩

end SmartProm
